import Mathlib

/-!
Verification of the paper-search repository's acquisition core.

This file shallowly embeds the Python modules `download_history.py`,
`download_manager.py`, `search_history.py` and the pure parts of
`search_engines.py` as executable Lean definitions, and proves the spec's
claims about them.  Machine-level conventions used by the embedding:

* Python `str` is modelled by Lean `String` (a list of unicode scalar
  values); `str.lower()` is modelled on the ASCII range, which is the only
  range exercised by the spec and by the code's own string constants.
* Python's falsy values (`''`, `0`, `None`) are modelled explicitly:
  empty string, `0`, `Option.none`.
* File-system and network effects are made explicit: the set of existing
  paths is a `List String`, the network is an oracle `String → NetResult`,
  and the clock is passed in as preformatted date strings.
-/

/-! ## Python string primitives -/

/-- Model of Python ASCII whitespace as used by `str.split()` / `str.strip()`:
space, tab, newline, carriage return, vertical tab, form feed. -/
def isPySpace (c : Char) : Bool :=
  c = ' ' || c = '\t' || c = '\n' || c = '\r' || c = '\x0b' || c = '\x0c'

/-- Model of Python `str.lower()` on a single character (ASCII range:
uppercase letters are shifted by 32, everything else is unchanged). -/
def pyLower (c : Char) : Char :=
  if 65 ≤ c.toNat ∧ c.toNat ≤ 90 then Char.ofNat (c.toNat + 32) else c

/-- Model of Python `str.lower()` on a whole string. -/
def pyLowerStr (s : String) : String := ⟨s.data.map pyLower⟩

/-- Does `hay` start with `needle`?  (Character-list level.) -/
def startsWithChars : List Char → List Char → Bool
  | [], _ => true
  | _ :: _, [] => false
  | a :: as, b :: bs => a = b && startsWithChars as bs

/-- Model of Python's substring test `needle in hay` (character-list level). -/
def containsSubChars : List Char → List Char → Bool
  | n, [] => n.isEmpty
  | n, c :: t => startsWithChars n (c :: t) || containsSubChars n t

/-- Model of Python's substring test `needle in hay`. -/
def containsSub (needle hay : String) : Bool :=
  containsSubChars needle.data hay.data

/-- Model of Python's `str.endswith(suf)`. -/
def endsWithSub (suf s : String) : Bool :=
  startsWithChars suf.data.reverse s.data.reverse

/-- Model of Python's lexicographic `<` on strings (character-list level). -/
def strLtChars : List Char → List Char → Bool
  | [], [] => false
  | [], _ :: _ => true
  | _ :: _, [] => false
  | a :: as, b :: bs => if a = b then strLtChars as bs else decide (a < b)

/-- Model of Python's lexicographic `<` on strings. -/
def strLt (a b : String) : Bool := strLtChars a.data b.data

/-- Model of Python `str.strip()`: drop leading and trailing whitespace. -/
def pyStrip (l : List Char) : List Char :=
  ((l.dropWhile isPySpace).reverse.dropWhile isPySpace).reverse

/-- Splits a character list at whitespace into (possibly empty) chunks;
`str.split()` is `chunks` with the empty chunks removed. -/
def chunks : List Char → List (List Char)
  | [] => [[]]
  | c :: cs =>
    if isPySpace c then [] :: chunks cs
    else
      match chunks cs with
      | [] => [[c]]
      | w :: ws => (c :: w) :: ws

/-- Model of Python `str.split()` with no separator argument: split at
whitespace runs, discarding empty pieces. -/
def pyWords (l : List Char) : List (List Char) :=
  (chunks l).filter (fun w => !w.isEmpty)

/-- Model of Python `' '.join(ws)`. -/
def unwords : List (List Char) → List Char
  | [] => []
  | [w] => w
  | w :: w' :: ws => w ++ ' ' :: unwords (w' :: ws)

/-! ## Download history (`download_history.py`) -/

/-- Embedding of `DownloadHistory._normalize_title`:
`' '.join(title.lower().strip().split())`. -/
def normalize_title (t : String) : String :=
  ⟨unwords (pyWords (pyStrip (t.data.map pyLower)))⟩

/-- One value of the download-history map (`self.history[key]` in
`DownloadHistory.add_download`). -/
structure HistRecord where
  title : String
  file_path : String
  pdf_url : Option String
  download_date : String
  date_only : String
deriving DecidableEq, Repr

/-- The download-history store: a finite map from normalized titles to
records, embedded as an association list (first binding wins, mirroring
a Python dict whose keys are unique). -/
abbrev Hist := List (String × HistRecord)

/-- Lookup in the download-history map (`self.history.get(key)`). -/
def histGet : Hist → String → Option HistRecord
  | [], _ => none
  | (k, r) :: t, key => if k = key then some r else histGet t key

/-- Assignment in the download-history map (`self.history[key] = record`):
replaces the binding when the key is present, otherwise adds one. -/
def histSet : Hist → String → HistRecord → Hist
  | [], key, r => [(key, r)]
  | (k, r') :: t, key, r =>
    if k = key then (key, r) :: t else (k, r') :: histSet t key r

/-- Embedding of `DownloadHistory.is_downloaded`. -/
def is_downloaded (h : Hist) (paper_title : String) : Bool :=
  (histGet h (normalize_title paper_title)).isSome

/-- Embedding of `DownloadHistory.get_download_info`. -/
def get_download_info (h : Hist) (paper_title : String) : Option HistRecord :=
  histGet h (normalize_title paper_title)

/-- Embedding of `DownloadHistory.add_download`; the two `datetime.now()`
format strings are passed in explicitly as `now_full` / `now_date`. -/
def add_download (h : Hist) (paper_title file_path : String)
    (pdf_url : Option String) (now_full now_date : String) : Hist :=
  histSet h (normalize_title paper_title)
    ⟨paper_title, file_path, pdf_url, now_full, now_date⟩

/-- Embedding of `DownloadHistory.get_total_downloads` (`len(self.history)`). -/
def get_total_downloads (h : Hist) : Nat := h.length

/-! ## Download manager (`download_manager.py`) -/

/-- The character class removed by `DownloadManager.sanitize_filename`
(the regex `[<>:"/\\|?*]`). -/
def isIllegalFilenameChar (c : Char) : Bool :=
  c = '<' || c = '>' || c = ':' || c = '"' || c = '/' || c = '\\' ||
  c = '|' || c = '?' || c = '*'

/-- Embedding of `DownloadManager.sanitize_filename`: strip the illegal
characters, cap the length at 200, strip surrounding whitespace. -/
def sanitize_filename (filename : String) : String :=
  let f1 := filename.data.filter (fun c => !isIllegalFilenameChar c)
  let f2 := if 200 < f1.length then f1.take 200 else f1
  ⟨pyStrip f2⟩

/-- The candidate file names tried by `download_pdf`'s collision loop:
`base.pdf`, then `base_1.pdf`, `base_2.pdf`, ... -/
def candName (base : String) : Nat → String
  | 0 => base ++ ".pdf"
  | n + 1 => base ++ "_" ++ Nat.repr (n + 1) ++ ".pdf"

/-- Candidate full paths (`os.path.join` on a POSIX path separator). -/
def candPath (dir base : String) (n : Nat) : String :=
  dir ++ "/" ++ candName base n

/-- The collision loop `while os.path.exists(filepath): counter += 1`,
embedded with an explicit iteration bound.  The loop stops at the first
candidate index (from `n` upwards) whose path is not among the existing
paths `fs`; `findFreePath` runs it with bound `fs.length + 1`, which the
injectivity of `candPath` proves sufficient, so the embedding computes
exactly the path the unbounded Python loop finds. -/
def findFreeAux (fs : List String) (dir base : String) : Nat → Nat → String
  | 0, n => candPath dir base n
  | fuel + 1, n =>
    if candPath dir base n ∈ fs then findFreeAux fs dir base fuel (n + 1)
    else candPath dir base n

/-- The free destination path chosen by `download_pdf` for a sanitized
base name, given the set `fs` of already-existing paths. -/
def findFreePath (fs : List String) (dir base : String) : String :=
  findFreeAux fs dir base (fs.length + 1) 0

/-- Outcome of the one HTTP GET issued by `download_pdf`:
`requests.exceptions.Timeout`, any other `RequestException` (this also
covers a `raise_for_status` error; `msg` is the exception text), or a
response whose declared `content-type` header is `content_type`. -/
inductive NetResult where
  | timeout
  | connError (msg : String)
  | ok (content_type : String)
deriving DecidableEq, Repr

/-- Result of `DownloadManager.download_pdf` together with its effects:
the returned triple `(success, message, filepath)`, the file system and
download history after the call, and whether an HTTP request was made. -/
structure DownloadOutcome where
  ok : Bool
  message : String
  filepath : String
  fs : List String
  hist : Hist
  net_called : Bool
deriving DecidableEq, Repr

/-- Embedding of `DownloadManager.download_pdf`.  `net` is the network
oracle, `fs` the set of existing paths, `hist` the download history,
`download_path` the target directory; `now_full`/`now_date` are the
formatted timestamps `add_download` would record.  The duplicate branch
consults the history before any filename generation or network use
(`net_called = false`, state unchanged); a successful download creates
exactly the chosen file and persists a history record. -/
def download_pdf (net : String → NetResult) (fs : List String) (hist : Hist)
    (download_path url title now_full now_date : String) : DownloadOutcome :=
  if url = "" then
    ⟨false, "PDF链接不可用", "", fs, hist, false⟩
  else
    match histGet hist (normalize_title title) with
    | some info =>
      ⟨false, "已下载过 (日期: " ++ info.date_only ++ ")", info.file_path,
        fs, hist, false⟩
    | none =>
      let filepath := findFreePath fs download_path (sanitize_filename title)
      match net url with
      | .timeout => ⟨false, "下载超时", "", fs, hist, true⟩
      | .connError e => ⟨false, "下载失败: " ++ e, "", fs, hist, true⟩
      | .ok content_type =>
        if !containsSub "application/pdf" content_type &&
            !containsSub "pdf" (pyLowerStr url) then
          ⟨false, "链接不是有效的PDF文件", "", fs, hist, true⟩
        else
          ⟨true, "成功下载到: " ++ filepath, filepath, filepath :: fs,
            add_download hist title filepath (some url) now_full now_date, true⟩

/-- One element of the `papers` list passed to `download_multiple`: a dict
that may or may not carry `title` and `pdf_url` keys. -/
structure PaperDict where
  title : Option String
  pdf_url : Option String
deriving DecidableEq, Repr

/-- Observable events of a `download_multiple` run, in order: each paper
index produces a progress-callback invocation `(idx, total)` (when a
callback was supplied) followed by its download attempt. -/
inductive BatchEvent where
  | progress (idx total : Nat)
  | attempt (idx : Nat)
deriving DecidableEq, Repr

/-- The dict returned by `DownloadManager.download_multiple` (buckets keep
the fields the code stores: title, message, and for successes the path),
plus the final file system / history and the event trace. -/
structure BatchResult where
  success : List (String × String × String)
  failed : List (String × String)
  skipped : List (String × String)
  total : Nat
  fs : List String
  hist : Hist
  trace : List BatchEvent
deriving DecidableEq, Repr

/-- The loop body of `download_multiple`: processes the remaining papers
starting at index `idx`, threading the file system and history through
the sequential `download_pdf` calls.  `has_callback` records whether a
progress callback was supplied. -/
def download_multiple_go (net : String → NetResult)
    (download_path now_full now_date : String) (has_callback : Bool)
    (total : Nat) : List PaperDict → Nat → List String → Hist → BatchResult
  | [], _, fs, hist => ⟨[], [], [], total, fs, hist, []⟩
  | p :: ps, idx, fs, hist =>
    let title := p.title.getD ("paper_" ++ Nat.repr idx)
    let url := p.pdf_url.getD ""
    let r := download_pdf net fs hist download_path url title now_full now_date
    let rest := download_multiple_go net download_path now_full now_date
      has_callback total ps (idx + 1) r.fs r.hist
    let evs := (if has_callback then [BatchEvent.progress idx total] else [])
      ++ [BatchEvent.attempt idx]
    if r.ok then
      { rest with success := (title, r.message, r.filepath) :: rest.success,
                  trace := evs ++ rest.trace }
    else if containsSub "已下载过" r.message then
      { rest with skipped := (title, r.message) :: rest.skipped,
                  trace := evs ++ rest.trace }
    else
      { rest with failed := (title, r.message) :: rest.failed,
                  trace := evs ++ rest.trace }

/-- Embedding of `DownloadManager.download_multiple`. -/
def download_multiple (net : String → NetResult)
    (download_path now_full now_date : String) (has_callback : Bool)
    (fs : List String) (hist : Hist) (papers : List PaperDict) : BatchResult :=
  download_multiple_go net download_path now_full now_date has_callback
    papers.length papers 0 fs hist

/-- The event trace a sequential run over `count` papers starting at index
`idx` is expected to produce. -/
def expectedTrace (has_callback : Bool) (total : Nat) :
    Nat → Nat → List BatchEvent
  | 0, _ => []
  | count + 1, idx =>
    (if has_callback then [BatchEvent.progress idx total] else [])
      ++ BatchEvent.attempt idx :: expectedTrace has_callback total count (idx + 1)

/-! ## Search engines (`search_engines.py`) -/

/-- Embedding of the `Paper` data class. -/
structure Paper where
  title : String
  abstract : String
  url : String
  pdf_url : Option String
  authors : List String
  published : Option String
  source : String
deriving DecidableEq, Repr

/-- Embedding of `SearchManager._filter_paper`: reject when any exclude
keyword occurs in the lowercased title-plus-abstract text; otherwise,
when the require list is non-empty, keep only when at least one require
keyword occurs; `true` means keep. -/
def filter_paper (p : Paper) (exclude_keywords require_keywords : List String) :
    Bool :=
  let content := pyLowerStr (p.title ++ " " ++ p.abstract)
  if exclude_keywords.any (fun k => containsSub (pyLowerStr k) content) then
    false
  else if require_keywords.isEmpty then true
  else require_keywords.any (fun k => containsSub (pyLowerStr k) content)

/-- A field of an OpenReview V2 `content` object: absent, a raw value, or
a wrapper object exposing a `value` key. -/
inductive JsonField where
  | absent
  | str (s : String)
  | obj (value : String)
deriving DecidableEq, Repr

/-- Embedding of the `get_value` helper inside `OpenReviewSearchEngine.search`:
unwrap a wrapper object's `value`, pass a raw value through, and turn a
missing or falsy field into the empty string. -/
def get_value : JsonField → String
  | .absent => ""
  | .str s => s
  | .obj v => v

/-- One note of the OpenReview response, restricted to the fields the
engine reads.  `cdate = 0` models a missing/falsy creation timestamp. -/
structure ORNote where
  title : JsonField
  abstract : JsonField
  summary : JsonField
  cdate : Nat
  id : String
  authors : List String
deriving DecidableEq, Repr

/-- Embedding of the response-processing loop of
`OpenReviewSearchEngine.search`, for a decoded note list.  `ts_to_date`
models the `datetime.fromtimestamp(cdate / 1000).strftime(...)` call as an
oracle from the raw timestamp to a `YYYY-MM-DD` string; date strings are
compared with Python's lexicographic string order. -/
def openreview_search (ts_to_date : Nat → String)
    (start_date end_date : Option String) (max_results : Nat)
    (notes : List ORNote) : List Paper :=
  (notes.take max_results).filterMap fun note =>
    let published : Option String :=
      if note.cdate ≠ 0 then some (ts_to_date note.cdate) else none
    let dateReject : Bool :=
      match published with
      | some d =>
        (match start_date with | some s => strLt d s | none => false) ||
        (match end_date with | some e => strLt e d | none => false)
      | none => false
    if dateReject then none
    else
      let title := get_value note.title
      if title = "" || title = "No Title" then none
      else
        let abstract0 := get_value note.abstract
        let abstract1 := if abstract0 = "" then get_value note.summary
          else abstract0
        let abstract := if abstract1 = "" then "No Abstract" else abstract1
        some { title := title, abstract := abstract,
               url := "https://openreview.net/forum?id=" ++ note.id,
               pdf_url := some ("https://openreview.net/pdf?id=" ++ note.id),
               authors := note.authors, published := published,
               source := "OpenReview" }

/-- Embedding of the anti-bot bounded wait of
`GoogleScholarSearchEngine._search_with_selenium`: while the elapsed time
is below `max_wait`, poll the page; when the block indicator has cleared
and genuine result markup is present (`cleared elapsed = true`), exit
early as verified, otherwise sleep `interval` seconds and poll again.
Each poll-and-sleep round advances the clock by `interval`; the explicit
iteration bound only needs to exceed `max_wait / interval` to make the
embedding total. Returns the `verified` flag and the final elapsed time. -/
def bounded_wait (cleared : Nat → Bool) (max_wait interval : Nat) :
    Nat → Nat → Bool × Nat
  | 0, elapsed => (false, elapsed)
  | fuel + 1, elapsed =>
    if elapsed < max_wait then
      if cleared elapsed then (true, elapsed)
      else bounded_wait cleared max_wait interval fuel (elapsed + interval)
    else (false, elapsed)

/-- The block-handling wait as instantiated in the code: ceiling 120
seconds, polling every 2 seconds, starting at elapsed time 0 (61 rounds
cover the whole window). -/
def scholar_block_wait (cleared : Nat → Bool) : Bool × Nat :=
  bounded_wait cleared 120 2 121 0

/-- What the blocked search returns: on verification failure the engine
returns the empty paper list it has accumulated (no internal retry);
on early verification success the search proceeds, modelled by the
continuation `proceed` applied at the exit time. -/
def scholar_blocked_search (cleared : Nat → Bool)
    (proceed : Nat → List Paper) : List Paper × Nat :=
  let r := scholar_block_wait cleared
  if r.1 then (proceed r.2, r.2) else ([], r.2)

/-! ## Search history (`search_history.py`) -/

/-- One record of the search-history list. -/
structure SearchRecord where
  keywords : String
  exclude_keywords : String
  sources : List String
  results_count : Nat
  first_search_time : Nat
  last_search_time : Nat
  search_count : Nat
deriving DecidableEq, Repr

/-- The merge-identity test of `SearchHistory.add_search`: a record matches
a query when both the keywords and the exclude keywords coincide. -/
def recMatches (r : SearchRecord) (keywords exclude_keywords : String) : Bool :=
  r.keywords = keywords && r.exclude_keywords = exclude_keywords

/-- The lookup-and-update loop of `SearchHistory.add_search`: update the
first record matching the query pair in place (refreshing
`last_search_time`, `sources`, `results_count` and incrementing
`search_count`), returning `none` when no record matches. -/
def update_existing (keywords exclude_keywords : String)
    (sources : List String) (results_count now : Nat) :
    List SearchRecord → Option (List SearchRecord)
  | [] => none
  | r :: t =>
    if recMatches r keywords exclude_keywords then
      some ({ r with last_search_time := now,
                     search_count := r.search_count + 1,
                     sources := sources,
                     results_count := results_count } :: t)
    else
      (update_existing keywords exclude_keywords sources results_count now t).map
        (r :: ·)

/-- Embedding of `SearchHistory.add_search`: update a matching record in
place, else insert a fresh record (search count 1, both timestamps `now`)
at the front and truncate the list to 100 entries. -/
def add_search (history : List SearchRecord) (keywords exclude_keywords : String)
    (sources : List String) (results_count now : Nat) : List SearchRecord :=
  match update_existing keywords exclude_keywords sources results_count now
      history with
  | some h => h
  | none =>
    ({ keywords := keywords, exclude_keywords := exclude_keywords,
       sources := sources, results_count := results_count,
       first_search_time := now, last_search_time := now,
       search_count := 1 } :: history).take 100

/-- Is the history list ordered most-recent-first by `last_search_time`? -/
def isSortedByLastDesc : List SearchRecord → Bool
  | [] => true
  | [_] => true
  | a :: b :: t =>
    (b.last_search_time ≤ a.last_search_time) && isSortedByLastDesc (b :: t)

/-- Value of a decimal digit string, most significant digit first (used
to invert `Nat.repr` when proving the collision-loop candidates
pairwise distinct). -/
def decVal (l : List Char) : Nat :=
  l.foldl (fun a c => 10 * a + (c.toNat - 48)) 0

/-! ## Lemmas about the character primitives -/

theorem charOfNat_toNat {n : Nat} (h : n < 55296) : (Char.ofNat n).toNat = n := by
  have hv : n.isValidChar := Or.inl h
  simp only [Char.ofNat, hv, dif_pos]
  simp [Char.ofNatAux, Char.toNat, UInt32.toNat]

theorem pyLower_pyLower (c : Char) : pyLower (pyLower c) = pyLower c := by
  by_cases h : 65 ≤ c.toNat ∧ c.toNat ≤ 90
  · have h1 : pyLower c = Char.ofNat (c.toNat + 32) := by
      rw [pyLower, if_pos h]
    have h2 : (Char.ofNat (c.toNat + 32)).toNat = c.toNat + 32 :=
      charOfNat_toNat (by omega)
    rw [h1, pyLower, h2, if_neg (by omega)]
  · have h1 : pyLower c = c := by rw [pyLower, if_neg h]
    rw [h1]; exact h1

theorem pyLower_space {c : Char} (h : isPySpace c = true) : pyLower c = c := by
  have : c.toNat ≤ 32 := by
    simp only [isPySpace, Bool.or_eq_true, decide_eq_true_eq] at h
    rcases h with ((((h | h) | h) | h) | h) | h <;> subst h <;> decide
  rw [pyLower, if_neg (by omega)]

theorem isPySpace_pyLower (c : Char) : isPySpace (pyLower c) = isPySpace c := by
  by_cases h : 65 ≤ c.toNat ∧ c.toNat ≤ 90
  · rw [pyLower, if_pos h]
    have h1 : (Char.ofNat (c.toNat + 32)).toNat = c.toNat + 32 :=
      charOfNat_toNat (by omega)
    have hs : ∀ d : Char, isPySpace d = true → d.toNat ≤ 32 := by
      intro d hd
      simp only [isPySpace, Bool.or_eq_true, decide_eq_true_eq] at hd
      rcases hd with ((((hd | hd) | hd) | hd) | hd) | hd <;> subst hd <;> decide
    have hno : ∀ d : Char, 33 ≤ d.toNat → isPySpace d = false := by
      intro d hd
      cases hval : isPySpace d
      · rfl
      · exact absurd (hs d hval) (by omega)
    rw [hno _ (by omega), hno _ (by omega)]
  · rw [pyLower, if_neg h]

/-! ## Lemmas about splitting and joining -/

theorem chunks_ne_nil (l : List Char) : chunks l ≠ [] := by
  cases l with
  | nil => simp [chunks]
  | cons c cs =>
    rw [chunks]
    by_cases h : isPySpace c
    · simp [h]
    · simp only [h, Bool.false_eq_true, if_false]
      rcases hcs : chunks cs with _ | ⟨w, ws⟩ <;> simp

theorem chunks_cons_space {c : Char} (h : isPySpace c = true) (l : List Char) :
    chunks (c :: l) = [] :: chunks l := by
  rw [chunks, if_pos h]

theorem chunks_append_space {c : Char} (h : isPySpace c = true)
    (u v : List Char) : chunks (u ++ c :: v) = chunks u ++ chunks v := by
  induction u with
  | nil => rw [List.nil_append, chunks_cons_space h]; rfl
  | cons a u ih =>
    by_cases ha : isPySpace a
    · rw [List.cons_append, chunks_cons_space ha, chunks_cons_space ha,
        List.cons_append, ih]
    · rw [List.cons_append, chunks, if_neg (by simp [ha]), chunks,
        if_neg (by simp [ha]), ih]
      rcases hu : chunks u with _ | ⟨w, ws⟩
      · exact absurd hu (chunks_ne_nil u)
      · simp

theorem chunks_append_word {w : List Char}
    (hw : ∀ c ∈ w, isPySpace c = false) {l : List Char} {r : List Char}
    {rs : List (List Char)} (hl : chunks l = r :: rs) :
    chunks (w ++ l) = (w ++ r) :: rs := by
  induction w with
  | nil => simpa using hl
  | cons a w ih =>
    have ha : isPySpace a = false := hw a (by simp)
    have ih' := ih (fun c hc => hw c (by simp [hc]))
    rw [List.cons_append, chunks, if_neg (by simp [ha]), ih']
    simp

theorem pyWords_cons_space {c : Char} (h : isPySpace c = true) (l : List Char) :
    pyWords (c :: l) = pyWords l := by
  rw [pyWords, chunks_cons_space h, List.filter_cons]
  simp [pyWords]

theorem pyWords_append_space {c : Char} (h : isPySpace c = true)
    (u v : List Char) : pyWords (u ++ c :: v) = pyWords u ++ pyWords v := by
  rw [pyWords, chunks_append_space h, List.filter_append]
  rfl

theorem pyWords_all_space {l : List Char} (h : ∀ c ∈ l, isPySpace c = true) :
    pyWords l = [] := by
  induction l with
  | nil => rfl
  | cons c cs ih =>
    rw [pyWords_cons_space (h c (by simp))]
    exact ih (fun c hc => h c (by simp [hc]))

theorem pyWords_append_all_space {t : List Char}
    (h : ∀ c ∈ t, isPySpace c = true) (l : List Char) :
    pyWords (l ++ t) = pyWords l := by
  cases t with
  | nil => rw [List.append_nil]
  | cons c t =>
    rw [pyWords_append_space (h c (by simp)) l t,
      pyWords_all_space (fun d hd => h d (List.mem_cons_of_mem c hd)),
      List.append_nil]

theorem pyWords_dropWhile (l : List Char) :
    pyWords (l.dropWhile isPySpace) = pyWords l := by
  induction l with
  | nil => rfl
  | cons c cs ih =>
    by_cases h : isPySpace c
    · rw [List.dropWhile_cons, if_pos h, ih, pyWords_cons_space h]
    · rw [List.dropWhile_cons, if_neg (by simp [h])]

theorem pyWords_pyStrip (l : List Char) : pyWords (pyStrip l) = pyWords l := by
  rw [pyStrip]
  set m := l.dropWhile isPySpace with hm
  have hdec : m.reverse.takeWhile isPySpace ++ m.reverse.dropWhile isPySpace
      = m.reverse := List.takeWhile_append_dropWhile ..
  have hm2 : m = (m.reverse.dropWhile isPySpace).reverse
      ++ (m.reverse.takeWhile isPySpace).reverse := by
    conv_lhs => rw [← List.reverse_reverse m, ← hdec]
    rw [List.reverse_append]
  have htail : ∀ c ∈ (m.reverse.takeWhile isPySpace).reverse,
      isPySpace c = true := by
    intro c hc
    exact List.mem_takeWhile_imp (List.mem_reverse.mp hc)
  calc pyWords (m.reverse.dropWhile isPySpace).reverse
      = pyWords ((m.reverse.dropWhile isPySpace).reverse
          ++ (m.reverse.takeWhile isPySpace).reverse) :=
        (pyWords_append_all_space htail _).symm
    _ = pyWords m := by rw [← hm2]
    _ = pyWords l := pyWords_dropWhile l

theorem chunks_cons_nonspace {a : Char} (ha : isPySpace a = false)
    {cs w : List Char} {ws : List (List Char)} (hcs : chunks cs = w :: ws) :
    chunks (a :: cs) = (a :: w) :: ws := by
  have h := chunks_append_word (w := [a])
    (by intro c hc; simp at hc; subst hc; exact ha) hcs
  simpa using h

theorem chunks_no_space :
    ∀ (l : List Char), ∀ w ∈ chunks l, ∀ c ∈ w, isPySpace c = false := by
  intro l
  induction l with
  | nil =>
    intro w hw c hc
    simp [chunks] at hw
    subst hw
    simp at hc
  | cons a cs ih =>
    intro w hw c hc
    by_cases ha : isPySpace a
    · rw [chunks_cons_space ha] at hw
      rcases List.mem_cons.mp hw with h | h
      · subst h; simp at hc
      · exact ih w h c hc
    · rcases hcs : chunks cs with _ | ⟨w', ws'⟩
      · exact absurd hcs (chunks_ne_nil cs)
      · rw [chunks_cons_nonspace (by simp [ha]) hcs] at hw
        rcases List.mem_cons.mp hw with h | h
        · subst h
          rcases List.mem_cons.mp hc with h | h
          · subst h; simp [ha]
          · exact ih w' (by simp [hcs]) c h
        · exact ih w (by simp [hcs, h]) c hc

theorem chunks_chars :
    ∀ (l : List Char), ∀ w ∈ chunks l, ∀ c ∈ w, c ∈ l := by
  intro l
  induction l with
  | nil =>
    intro w hw c hc
    simp [chunks] at hw
    subst hw
    simp at hc
  | cons a cs ih =>
    intro w hw c hc
    by_cases ha : isPySpace a
    · rw [chunks_cons_space ha] at hw
      rcases List.mem_cons.mp hw with h | h
      · subst h; simp at hc
      · exact List.mem_cons_of_mem a (ih w h c hc)
    · rcases hcs : chunks cs with _ | ⟨w', ws'⟩
      · exact absurd hcs (chunks_ne_nil cs)
      · rw [chunks_cons_nonspace (by simp [ha]) hcs] at hw
        rcases List.mem_cons.mp hw with h | h
        · subst h
          rcases List.mem_cons.mp hc with h | h
          · subst h; simp
          · exact List.mem_cons_of_mem a (ih w' (by simp [hcs]) c h)
        · exact List.mem_cons_of_mem a (ih w (by simp [hcs, h]) c hc)

theorem mem_of_mem_dropWhileChars {p : Char → Bool} :
    ∀ {l : List Char} {c : Char}, c ∈ l.dropWhile p → c ∈ l := by
  intro l
  induction l with
  | nil => intro c h; simp at h
  | cons a t ih =>
    intro c h
    rw [List.dropWhile_cons] at h
    by_cases hp : p a
    · simp only [hp, if_true] at h
      exact List.mem_cons_of_mem a (ih h)
    · simp only [hp, Bool.false_eq_true, if_false] at h
      exact h

theorem mem_of_mem_pyStrip {l : List Char} {c : Char} (h : c ∈ pyStrip l) :
    c ∈ l := by
  rw [pyStrip] at h
  have h1 := mem_of_mem_dropWhileChars (List.mem_reverse.mp h)
  exact mem_of_mem_dropWhileChars (List.mem_reverse.mp h1)

theorem mem_unwords {c : Char} :
    ∀ {ws : List (List Char)}, c ∈ unwords ws → c = ' ' ∨ ∃ w ∈ ws, c ∈ w := by
  intro ws
  induction ws with
  | nil => intro h; simp [unwords] at h
  | cons w ws ih =>
    cases ws with
    | nil =>
      intro h
      right
      exact ⟨w, by simp, h⟩
    | cons w' ws' =>
      intro h
      simp only [unwords] at h
      rcases List.mem_append.mp h with h | h
      · right; exact ⟨w, by simp, h⟩
      · rcases List.mem_cons.mp h with h | h
        · left; exact h
        · rcases ih h with h | ⟨w'', hw'', hc⟩
          · left; exact h
          · right; exact ⟨w'', by simp [hw''], hc⟩

theorem pyWords_unwords :
    ∀ {ws : List (List Char)}, (∀ w ∈ ws, w ≠ []) →
      (∀ w ∈ ws, ∀ c ∈ w, isPySpace c = false) →
      pyWords (unwords ws) = ws := by
  intro ws
  induction ws with
  | nil => intro _ _; rfl
  | cons w ws ih =>
    intro h1 h2
    cases ws with
    | nil =>
      have hch : chunks (w ++ []) = (w ++ []) :: [] :=
        chunks_append_word (h2 w (by simp)) (by rfl)
      rw [List.append_nil] at hch
      show pyWords w = [w]
      rw [pyWords, hch, List.filter_cons]
      have : w.isEmpty = false := by
        cases w with
        | nil => exact absurd rfl (h1 [] (by simp))
        | cons a t => rfl
      simp [this]
    | cons w' ws' =>
      have hrest : chunks (' ' :: unwords (w' :: ws')) =
          [] :: chunks (unwords (w' :: ws')) := chunks_cons_space (by decide) _
      have hch : chunks (w ++ ' ' :: unwords (w' :: ws')) =
          (w ++ []) :: chunks (unwords (w' :: ws')) :=
        chunks_append_word (h2 w (by simp)) hrest
      rw [List.append_nil] at hch
      show pyWords (w ++ ' ' :: unwords (w' :: ws')) = w :: w' :: ws'
      rw [pyWords, hch, List.filter_cons]
      have hwne : w.isEmpty = false := by
        cases w with
        | nil => exact absurd rfl (h1 [] (by simp))
        | cons a t => rfl
      have hih : pyWords (unwords (w' :: ws')) = w' :: ws' :=
        ih (fun u hu => h1 u (List.mem_cons_of_mem w hu))
          (fun u hu => h2 u (List.mem_cons_of_mem w hu))
      rw [pyWords] at hih
      simp [hwne, hih]

theorem map_id_of_fix {α : Type} {f : α → α} :
    ∀ {l : List α}, (∀ c ∈ l, f c = c) → l.map f = l := by
  intro l
  induction l with
  | nil => intro _; rfl
  | cons a t ih =>
    intro h
    simp only [List.map_cons, h a (by simp),
      ih (fun c hc => h c (List.mem_cons_of_mem a hc))]

theorem map_pyLower_map_pyLower (l : List Char) :
    (l.map pyLower).map pyLower = l.map pyLower := by
  apply map_id_of_fix
  intro c hc
  rcases List.mem_map.mp hc with ⟨d, _, rfl⟩
  exact pyLower_pyLower d

theorem normalize_chars_fixed (l : List Char) :
    (unwords (pyWords (pyStrip (l.map pyLower)))).map pyLower
      = unwords (pyWords (pyStrip (l.map pyLower))) := by
  apply map_id_of_fix
  intro c hc
  rcases mem_unwords hc with h | ⟨w, hw, hcw⟩
  · subst h; exact pyLower_space (by decide)
  · have hw' : w ∈ chunks (pyStrip (l.map pyLower)) := List.mem_of_mem_filter hw
    have hc1 : c ∈ pyStrip (l.map pyLower) := chunks_chars _ w hw' c hcw
    have hc2 : c ∈ l.map pyLower := mem_of_mem_pyStrip hc1
    rcases List.mem_map.mp hc2 with ⟨d, _, rfl⟩
    exact pyLower_pyLower d

/-! ## Claim C6: title normalization -/

theorem normalize_title_idem (t : String) :
    normalize_title (normalize_title t) = normalize_title t := by
  show (⟨unwords (pyWords (pyStrip
      ((unwords (pyWords (pyStrip (t.data.map pyLower)))).map pyLower)))⟩ :
      String) = ⟨unwords (pyWords (pyStrip (t.data.map pyLower)))⟩
  have h1 : ∀ w ∈ pyWords (pyStrip (t.data.map pyLower)), w ≠ [] := by
    intro w hw
    have := (List.mem_filter.mp hw).2
    intro hnil
    subst hnil
    simp at this
  have h2 : ∀ w ∈ pyWords (pyStrip (t.data.map pyLower)),
      ∀ c ∈ w, isPySpace c = false := by
    intro w hw c hc
    exact chunks_no_space _ w (List.mem_of_mem_filter hw) c hc
  rw [normalize_chars_fixed, pyWords_pyStrip, pyWords_unwords h1 h2]

theorem normalize_title_lower (t : String) :
    normalize_title ⟨t.data.map pyLower⟩ = normalize_title t := by
  show (⟨unwords (pyWords (pyStrip ((t.data.map pyLower).map pyLower)))⟩ :
      String) = ⟨unwords (pyWords (pyStrip (t.data.map pyLower)))⟩
  rw [map_pyLower_map_pyLower]

theorem normalize_title_leading_space (t : String) :
    normalize_title ⟨' ' :: t.data⟩ = normalize_title t := by
  show (⟨unwords (pyWords (pyStrip ((' ' :: t.data).map pyLower)))⟩ : String)
    = ⟨unwords (pyWords (pyStrip (t.data.map pyLower)))⟩
  rw [List.map_cons, show pyLower ' ' = ' ' from by decide,
    pyWords_pyStrip, pyWords_pyStrip, pyWords_cons_space (by decide)]

theorem normalize_title_trailing_space (t : String) :
    normalize_title ⟨t.data ++ [' ']⟩ = normalize_title t := by
  show (⟨unwords (pyWords (pyStrip ((t.data ++ [' ']).map pyLower)))⟩ : String)
    = ⟨unwords (pyWords (pyStrip (t.data.map pyLower)))⟩
  rw [List.map_append, pyWords_pyStrip, pyWords_pyStrip,
    pyWords_append_all_space (t := [' '].map pyLower) (by decide)]

theorem normalize_title_inner_space (u v : String) :
    normalize_title ⟨u.data ++ ' ' :: ' ' :: v.data⟩
      = normalize_title ⟨u.data ++ ' ' :: v.data⟩ := by
  show (⟨unwords (pyWords (pyStrip ((u.data ++ ' ' :: ' ' :: v.data).map
      pyLower)))⟩ : String)
    = ⟨unwords (pyWords (pyStrip ((u.data ++ ' ' :: v.data).map pyLower)))⟩
  rw [List.map_append, List.map_cons, List.map_cons, List.map_append,
    List.map_cons, show pyLower ' ' = ' ' from by decide,
    pyWords_pyStrip, pyWords_pyStrip,
    pyWords_append_space (by decide), pyWords_append_space (by decide),
    pyWords_cons_space (by decide)]

/-- C6: the title-normalization function `DownloadHistory._normalize_title`
is idempotent, insensitive to letter case (lowercasing the input first
does not change the result), insensitive to leading, trailing, and
repeated internal whitespace, and identifies "  Deep  Learning " with
"deep learning". -/
theorem C6_normalize_idempotent_case_whitespace_insensitive :
    (∀ t : String, normalize_title (normalize_title t) = normalize_title t) ∧
    (∀ t : String, normalize_title ⟨t.data.map pyLower⟩ = normalize_title t) ∧
    (∀ t : String, normalize_title ⟨' ' :: t.data⟩ = normalize_title t) ∧
    (∀ t : String, normalize_title ⟨t.data ++ [' ']⟩ = normalize_title t) ∧
    (∀ u v : String, normalize_title ⟨u.data ++ ' ' :: ' ' :: v.data⟩
      = normalize_title ⟨u.data ++ ' ' :: v.data⟩) ∧
    normalize_title "  Deep  Learning " = normalize_title "deep learning" := by
  exact ⟨normalize_title_idem, normalize_title_lower,
    normalize_title_leading_space, normalize_title_trailing_space,
    normalize_title_inner_space, by decide⟩

/-! ## Claim C2: the filter predicate -/

/-- C2: `SearchManager._filter_paper` rejects a paper as soon as any
exclude term occurs in the lowercased title-plus-abstract text, whatever
the require terms are; with no exclude match and a non-empty require
list it keeps the paper exactly when at least one require term occurs;
with no exclude match and an empty require list it keeps the paper.  In
particular exclude=["hardware"] rejects a paper whose abstract is
"a hardware accelerator" for every require list, and
require=["transformer","gnn"] rejects a paper matching neither while
keeping one matching either. -/
theorem C2_filter_paper_spec :
    (∀ (p : Paper) (ex req : List String), ∀ k ∈ ex,
      containsSub (pyLowerStr k) (pyLowerStr (p.title ++ " " ++ p.abstract))
        = true →
      filter_paper p ex req = false) ∧
    (∀ (p : Paper) (ex req : List String),
      (∀ k ∈ ex, containsSub (pyLowerStr k)
        (pyLowerStr (p.title ++ " " ++ p.abstract)) = false) →
      req ≠ [] →
      (filter_paper p ex req = true ↔ ∃ k ∈ req,
        containsSub (pyLowerStr k)
          (pyLowerStr (p.title ++ " " ++ p.abstract)) = true)) ∧
    (∀ (p : Paper) (ex : List String),
      (∀ k ∈ ex, containsSub (pyLowerStr k)
        (pyLowerStr (p.title ++ " " ++ p.abstract)) = false) →
      filter_paper p ex [] = true) ∧
    (∀ req : List String,
      filter_paper ⟨"t", "a hardware accelerator", "", none, [], none, ""⟩
        ["hardware"] req = false) ∧
    filter_paper ⟨"cnn survey", "about convolution networks", "", none, [],
      none, ""⟩ [] ["transformer", "gnn"] = false ∧
    filter_paper ⟨"a gnn method", "learning on graphs", "", none, [],
      none, ""⟩ [] ["transformer", "gnn"] = true := by
  have h1 : ∀ (p : Paper) (ex req : List String), ∀ k ∈ ex,
      containsSub (pyLowerStr k) (pyLowerStr (p.title ++ " " ++ p.abstract))
        = true →
      filter_paper p ex req = false := by
    intro p ex req k hk hsub
    have hany : (ex.any fun k => containsSub (pyLowerStr k)
        (pyLowerStr (p.title ++ " " ++ p.abstract))) = true :=
      List.any_eq_true.mpr ⟨k, hk, hsub⟩
    simp [filter_paper, hany]
  refine ⟨h1, ?_, ?_,
    fun req => h1 _ _ req "hardware" (by decide) (by decide),
    by decide, by decide⟩
  · intro p ex req hex hreq
    have hany : (ex.any fun k => containsSub (pyLowerStr k)
        (pyLowerStr (p.title ++ " " ++ p.abstract))) = false :=
      List.any_eq_false.mpr (by simpa using hex)
    have hne : req.isEmpty = false := by
      cases req with
      | nil => exact absurd rfl hreq
      | cons a t => rfl
    simp only [filter_paper, hany, Bool.false_eq_true, if_false, hne]
    exact List.any_eq_true
  · intro p ex hex
    have hany : (ex.any fun k => containsSub (pyLowerStr k)
        (pyLowerStr (p.title ++ " " ++ p.abstract))) = false :=
      List.any_eq_false.mpr (by simpa using hex)
    simp [filter_paper, hany]

/-- Closed instantiation of `C2_filter_paper_spec` discharging its
hypotheses at concrete papers and keyword lists. -/
theorem C2_filter_paper_spec_witness :
    filter_paper ⟨"t", "a hardware accelerator", "", none, [], none, ""⟩
      ["hardware"] ["transformer"] = false ∧
    filter_paper ⟨"a gnn method", "learning on graphs", "", none, [],
      none, ""⟩ ["hardware"] [] = true := by
  constructor
  · exact C2_filter_paper_spec.1
      ⟨"t", "a hardware accelerator", "", none, [], none, ""⟩
      ["hardware"] ["transformer"] "hardware" (by decide) (by decide)
  · exact C2_filter_paper_spec.2.2.1
      ⟨"a gnn method", "learning on graphs", "", none, [], none, ""⟩
      ["hardware"] (by decide)

/-! ## Claim C10: download-history round trip -/

theorem histGet_histSet_self (h : Hist) (k : String) (r : HistRecord) :
    histGet (histSet h k r) k = some r := by
  induction h with
  | nil => simp [histSet, histGet]
  | cons p t ih =>
    obtain ⟨k', r'⟩ := p
    by_cases hk : k' = k
    · simp [histSet, hk, histGet]
    · simp [histSet, hk, histGet, ih]

theorem histSet_length (h : Hist) (k : String) (r : HistRecord) :
    (histSet h k r).length
      = if (histGet h k).isSome then h.length else h.length + 1 := by
  induction h with
  | nil => simp [histSet, histGet]
  | cons p t ih =>
    obtain ⟨k', r'⟩ := p
    by_cases hk : k' = k
    · simp [histSet, hk, histGet]
    · simp only [histSet, hk, Bool.false_eq_true, if_false, histGet,
        List.length_cons, ih]
      split <;> simp [hk]

/-- C10: after `add_download(t, path, url)`, any title `t'` normalizing
equal to `t` is reported downloaded, `get_download_info(t')` returns a
record carrying the original title `t` and the stored `path`, and the
total download count grows by exactly one when `normalize(t)` was not
already a key and is unchanged otherwise. -/
theorem C10_download_history_round_trip
    (h : Hist) (t t' path : String) (url : Option String) (d1 d2 : String)
    (hnorm : normalize_title t' = normalize_title t) :
    is_downloaded (add_download h t path url d1 d2) t' = true ∧
    get_download_info (add_download h t path url d1 d2) t'
      = some ⟨t, path, url, d1, d2⟩ ∧
    get_total_downloads (add_download h t path url d1 d2)
      = if is_downloaded h t then get_total_downloads h
        else get_total_downloads h + 1 := by
  refine ⟨?_, ?_, ?_⟩
  · rw [is_downloaded, hnorm, add_download, histGet_histSet_self]
    rfl
  · rw [get_download_info, hnorm, add_download, histGet_histSet_self]
  · rw [get_total_downloads, add_download, histSet_length, is_downloaded,
      get_total_downloads]

/-- Closed instantiation of `C10_download_history_round_trip`: adding
"Deep Learning" to an empty store makes " deep  LEARNING " count as
downloaded, with the original title and path in the record, and one
entry in total. -/
theorem C10_download_history_round_trip_witness :
    is_downloaded (add_download [] "Deep Learning" "/d/x.pdf"
      (some "http://u") "2024-01-01 10:00:00" "2024-01-01")
      " deep  LEARNING " = true ∧
    get_download_info (add_download [] "Deep Learning" "/d/x.pdf"
      (some "http://u") "2024-01-01 10:00:00" "2024-01-01")
      " deep  LEARNING "
      = some ⟨"Deep Learning", "/d/x.pdf", some "http://u",
          "2024-01-01 10:00:00", "2024-01-01"⟩ ∧
    get_total_downloads (add_download [] "Deep Learning" "/d/x.pdf"
      (some "http://u") "2024-01-01 10:00:00" "2024-01-01")
      = if is_downloaded [] "Deep Learning" then get_total_downloads ([] : Hist)
        else get_total_downloads ([] : Hist) + 1 :=
  C10_download_history_round_trip [] "Deep Learning" " deep  LEARNING "
    "/d/x.pdf" (some "http://u") "2024-01-01 10:00:00" "2024-01-01"
    (by decide)

/-! ## Claim C3: download guards -/

/-- C3: with an empty `url`, `download_pdf` fails immediately, leaving the
file system and download history unchanged and making no network call;
with a non-empty `url` whose normalized title is already a key of the
history, it returns the duplicate outcome carrying the prior record's
date and stored file path, again with no network call and no state
change.  (In the code the history consultation happens before any
filename generation and before the HTTP request; in the embedding this
shows up as `net_called = false` and untouched state.) -/
theorem C3_download_pdf_no_url_and_duplicate_guards :
    (∀ (net : String → NetResult) (fs : List String) (hist : Hist)
      (dp title d1 d2 : String),
      download_pdf net fs hist dp "" title d1 d2
        = ⟨false, "PDF链接不可用", "", fs, hist, false⟩) ∧
    (∀ (net : String → NetResult) (fs : List String) (hist : Hist)
      (dp url title d1 d2 : String) (info : HistRecord), url ≠ "" →
      histGet hist (normalize_title title) = some info →
      download_pdf net fs hist dp url title d1 d2
        = ⟨false, "已下载过 (日期: " ++ info.date_only ++ ")",
            info.file_path, fs, hist, false⟩) := by
  constructor
  · intro net fs hist dp title d1 d2
    simp [download_pdf]
  · intro net fs hist dp url title d1 d2 info hurl hinfo
    rw [download_pdf, if_neg hurl, hinfo]

/-- Closed instantiation of `C3_download_pdf_no_url_and_duplicate_guards`:
a concrete duplicate lookup returns the stored date and path with no
network call. -/
theorem C3_download_pdf_no_url_and_duplicate_guards_witness :
    download_pdf (fun _ => NetResult.ok "application/pdf") ["/d/a.pdf"]
      [("deep learning", ⟨"Deep Learning", "/d/a.pdf", some "http://u",
        "2024-01-01 10:00:00", "2024-01-01"⟩)]
      "/d" "http://u" "Deep Learning" "2024-02-02 09:00:00" "2024-02-02"
      = ⟨false, "已下载过 (日期: " ++ "2024-01-01" ++ ")", "/d/a.pdf",
          ["/d/a.pdf"],
          [("deep learning", ⟨"Deep Learning", "/d/a.pdf", some "http://u",
            "2024-01-01 10:00:00", "2024-01-01"⟩)], false⟩ :=
  C3_download_pdf_no_url_and_duplicate_guards.2
    (fun _ => NetResult.ok "application/pdf") ["/d/a.pdf"]
    [("deep learning", ⟨"Deep Learning", "/d/a.pdf", some "http://u",
      "2024-01-01 10:00:00", "2024-01-01"⟩)]
    "/d" "http://u" "Deep Learning" "2024-02-02 09:00:00" "2024-02-02"
    ⟨"Deep Learning", "/d/a.pdf", some "http://u",
      "2024-01-01 10:00:00", "2024-01-01"⟩
    (by decide) (by decide)

/-! ## Claim C4: collision-safe naming -/

theorem digitChar_toNat {d : Nat} (h : d < 10) :
    (Nat.digitChar d).toNat = 48 + d := by
  interval_cases d <;> decide

theorem toDigitsCore_decVal :
    ∀ (f n : Nat) (l : List Char), n < f →
      ∃ D, Nat.toDigitsCore 10 f n l = D ++ l ∧ D ≠ [] ∧ decVal D = n := by
  intro f
  induction f with
  | zero => intro n l h; omega
  | succ f ih =>
    intro n l h
    rw [show Nat.toDigitsCore 10 (f + 1) n l
        = if n / 10 = 0 then Nat.digitChar (n % 10) :: l
          else Nat.toDigitsCore 10 f (n / 10) (Nat.digitChar (n % 10) :: l)
      from by simp [Nat.toDigitsCore]]
    by_cases hdiv : n / 10 = 0
    · refine ⟨[Nat.digitChar (n % 10)], by simp [hdiv], by simp, ?_⟩
      have hlt : n % 10 < 10 := Nat.mod_lt _ (by omega)
      rw [decVal, List.foldl_cons, List.foldl_nil, digitChar_toNat hlt]
      omega
    · have hrec : n / 10 < f := by omega
      obtain ⟨D, hD, hDne, hDval⟩ := ih (n / 10) (Nat.digitChar (n % 10) :: l) hrec
      refine ⟨D ++ [Nat.digitChar (n % 10)], ?_, by simp, ?_⟩
      · simp [hdiv, hD]
      · have hlt : n % 10 < 10 := Nat.mod_lt _ (by omega)
        rw [decVal, List.foldl_append]
        rw [decVal] at hDval
        rw [hDval, List.foldl_cons, List.foldl_nil, digitChar_toNat hlt]
        omega

theorem natRepr_injective : Function.Injective Nat.repr := by
  intro m n h
  have hm := toDigitsCore_decVal (m + 1) m [] (by omega)
  have hn := toDigitsCore_decVal (n + 1) n [] (by omega)
  obtain ⟨Dm, hDm, _, hvm⟩ := hm
  obtain ⟨Dn, hDn, _, hvn⟩ := hn
  have hdata : (Nat.repr m).data = (Nat.repr n).data := by rw [h]
  rw [Nat.repr, Nat.repr, Nat.toDigits, Nat.toDigits] at hdata
  have hdata' : Nat.toDigitsCore 10 (m + 1) m []
      = Nat.toDigitsCore 10 (n + 1) n [] := hdata
  rw [hDm, hDn, List.append_nil, List.append_nil] at hdata'
  rw [← hvm, ← hvn, hdata']

theorem stringDataInj {s t : String} (h : s.data = t.data) : s = t := by
  cases s
  cases t
  congr 1

theorem candName_injective (base : String) :
    Function.Injective (candName base) := by
  intro a b h
  have hd : (candName base a).data = (candName base b).data := by rw [h]
  cases a with
  | zero =>
    cases b with
    | zero => rfl
    | succ b =>
      simp only [candName, String.data_append, List.append_assoc] at hd
      have := List.append_cancel_left hd
      simp at this
  | succ a =>
    cases b with
    | zero =>
      simp only [candName, String.data_append, List.append_assoc] at hd
      have := List.append_cancel_left hd
      simp at this
    | succ b =>
      simp only [candName, String.data_append, List.append_assoc] at hd
      have h1 := List.append_cancel_left hd
      have h2 := List.append_cancel_left (List.cons.injEq .. ▸ h1).2
      have h3 : (Nat.repr (a + 1)).data = (Nat.repr (b + 1)).data :=
        List.append_cancel_right h2
      have := natRepr_injective (stringDataInj h3)
      omega

theorem candPath_injective (dir base : String) :
    Function.Injective (candPath dir base) := by
  intro a b h
  have hd : (candPath dir base a).data = (candPath dir base b).data := by rw [h]
  simp only [candPath, String.data_append, List.append_assoc] at hd
  have h1 := List.append_cancel_left (List.append_cancel_left hd)
  exact candName_injective base (stringDataInj h1)

theorem exists_free_candidate (fs : List String) (dir base : String) :
    ∃ k ≤ fs.length, candPath dir base k ∉ fs := by
  by_contra hcon
  push_neg at hcon
  have hsub : (Finset.range (fs.length + 1)).image (candPath dir base)
      ⊆ fs.toFinset := by
    intro s hs
    rcases Finset.mem_image.mp hs with ⟨k, hk, rfl⟩
    exact List.mem_toFinset.mpr (hcon k (by
      have := Finset.mem_range.mp hk
      omega))
  have hcard : fs.length + 1 ≤ fs.toFinset.card := by
    calc fs.length + 1
        = (Finset.range (fs.length + 1)).card := by rw [Finset.card_range]
      _ = ((Finset.range (fs.length + 1)).image (candPath dir base)).card :=
          (Finset.card_image_of_injective _ (candPath_injective dir base)).symm
      _ ≤ fs.toFinset.card := Finset.card_le_card hsub
  have := List.toFinset_card_le fs
  omega

theorem findFreeAux_not_mem (fs : List String) (dir base : String) :
    ∀ (fuel n : Nat),
      (∃ k, n ≤ k ∧ k ≤ n + fuel ∧ candPath dir base k ∉ fs) →
      findFreeAux fs dir base fuel n ∉ fs := by
  intro fuel
  induction fuel with
  | zero =>
    intro n ⟨k, hk1, hk2, hk3⟩
    have : k = n := by omega
    subst this
    simpa [findFreeAux] using hk3
  | succ fuel ih =>
    intro n ⟨k, hk1, hk2, hk3⟩
    rw [findFreeAux]
    by_cases hmem : candPath dir base n ∈ fs
    · simp only [hmem, if_true]
      apply ih
      refine ⟨k, ?_, by omega, hk3⟩
      rcases Nat.eq_or_lt_of_le hk1 with h | h
      · subst h; exact absurd hmem hk3
      · omega
    · simp [hmem]

theorem findFreePath_not_mem (fs : List String) (dir base : String) :
    findFreePath fs dir base ∉ fs := by
  rw [findFreePath]
  apply findFreeAux_not_mem
  obtain ⟨k, hk, hfree⟩ := exists_free_candidate fs dir base
  exact ⟨k, by omega, by omega, hfree⟩

theorem download_pdf_success_path (net : String → NetResult) (fs : List String)
    (hist : Hist) (dp url title d1 d2 : String)
    (hok : (download_pdf net fs hist dp url title d1 d2).ok = true) :
    download_pdf net fs hist dp url title d1 d2
      = ⟨true, "成功下载到: " ++ findFreePath fs dp (sanitize_filename title),
          findFreePath fs dp (sanitize_filename title),
          findFreePath fs dp (sanitize_filename title) :: fs,
          add_download hist title
            (findFreePath fs dp (sanitize_filename title)) (some url) d1 d2,
          true⟩ := by
  by_cases hurl : url = ""
  · simp [download_pdf, hurl] at hok
  · cases hinfo : histGet hist (normalize_title title) with
    | some info => simp [download_pdf, hurl, hinfo] at hok
    | none =>
      cases hnet : net url with
      | timeout => simp [download_pdf, hurl, hinfo, hnet] at hok
      | connError e => simp [download_pdf, hurl, hinfo, hnet] at hok
      | ok ct =>
        by_cases hpdf : (!containsSub "application/pdf" ct &&
            !containsSub "pdf" (pyLowerStr url)) = true
        · simp [download_pdf, hurl, hinfo, hnet, hpdf] at hok
        · simp [download_pdf, hurl, hinfo, hnet, hpdf]

/-- C4: the download manager never overwrites an existing file.  The path
chosen by the collision loop is never among the existing paths, every
successful `download_pdf` writes to a path that did not exist beforehand
(and adds exactly that path to the file system), and two successive
downloads whose distinct titles sanitize to the same base name "name"
produce the two distinct files "/downloads/name.pdf" and
"/downloads/name_1.pdf". -/
theorem C4_download_never_overwrites :
    (∀ (fs : List String) (dir base : String),
      findFreePath fs dir base ∉ fs) ∧
    (∀ (net : String → NetResult) (fs : List String) (hist : Hist)
      (dp url title d1 d2 : String),
      (download_pdf net fs hist dp url title d1 d2).ok = true →
      (download_pdf net fs hist dp url title d1 d2).filepath ∉ fs ∧
      (download_pdf net fs hist dp url title d1 d2).fs
        = (download_pdf net fs hist dp url title d1 d2).filepath :: fs) ∧
    ((download_pdf (fun _ => NetResult.ok "application/pdf") [] []
        "/downloads" "http://h/a.pdf" "na/me" "d1" "d2").filepath
      = "/downloads/name.pdf" ∧
    (download_pdf (fun _ => NetResult.ok "application/pdf")
        (download_pdf (fun _ => NetResult.ok "application/pdf") [] []
          "/downloads" "http://h/a.pdf" "na/me" "d1" "d2").fs
        (download_pdf (fun _ => NetResult.ok "application/pdf") [] []
          "/downloads" "http://h/a.pdf" "na/me" "d1" "d2").hist
        "/downloads" "http://h/b.pdf" "na?me" "d1" "d2").filepath
      = "/downloads/name_1.pdf" ∧
    ("/downloads/name.pdf" : String) ≠ "/downloads/name_1.pdf") := by
  refine ⟨?_, ?_, by decide, by decide, by decide⟩
  · exact findFreePath_not_mem
  · intro net fs hist dp url title d1 d2 hok
    rw [download_pdf_success_path net fs hist dp url title d1 d2 hok]
    exact ⟨findFreePath_not_mem fs dp (sanitize_filename title), rfl⟩

/-- Closed instantiation of `C4_download_never_overwrites`: a concrete
successful download writes to a fresh path and records exactly it. -/
theorem C4_download_never_overwrites_witness :
    (download_pdf (fun _ => NetResult.ok "application/pdf") ["/d/other.pdf"]
      [] "/d" "http://h/a.pdf" "T" "d1" "d2").filepath ∉
        (["/d/other.pdf"] : List String) ∧
    (download_pdf (fun _ => NetResult.ok "application/pdf") ["/d/other.pdf"]
      [] "/d" "http://h/a.pdf" "T" "d1" "d2").fs
      = (download_pdf (fun _ => NetResult.ok "application/pdf")
          ["/d/other.pdf"] [] "/d" "http://h/a.pdf" "T" "d1" "d2").filepath
        :: ["/d/other.pdf"] :=
  C4_download_never_overwrites.2.1 (fun _ => NetResult.ok "application/pdf")
    ["/d/other.pdf"] [] "/d" "http://h/a.pdf" "T" "d1" "d2" (by decide)

/-! ## Claim C5: non-PDF content rejection -/

/-- C5 counterexample: the code checks for the substring "pdf" anywhere in
the lowercased URL, not for a PDF URL suffix.  For the response to
"http://host/pdf/file.bin" — content type "text/html" (which does not
indicate a PDF) and a URL whose suffix does not indicate a PDF — the
claim demands a failure outcome with no history entry and no file, but
`download_pdf` accepts the download: it reports success, creates the
file, and records a history entry. -/
theorem C5_counterexample_url_substring_not_suffix :
    containsSub "application/pdf" "text/html" = false ∧
    endsWithSub ".pdf" (pyLowerStr "http://host/pdf/file.bin") = false ∧
    endsWithSub "pdf" (pyLowerStr "http://host/pdf/file.bin") = false ∧
    (download_pdf (fun _ => NetResult.ok "text/html") [] [] "/d"
      "http://host/pdf/file.bin" "T" "d1" "d2").ok = true ∧
    (download_pdf (fun _ => NetResult.ok "text/html") [] [] "/d"
      "http://host/pdf/file.bin" "T" "d1" "d2").fs = ["/d/T.pdf"] ∧
    (download_pdf (fun _ => NetResult.ok "text/html") [] [] "/d"
      "http://host/pdf/file.bin" "T" "d1" "d2").hist ≠ [] := by
  decide

/-- C5 (amended): for every response whose declared content type does not
contain "application/pdf" and whose lowercased URL does not contain the
substring "pdf" anywhere, `download_pdf` returns a failure outcome
without adding a download-history entry and without creating the output
file. -/
theorem C5_non_pdf_response_rejected (net : String → NetResult)
    (fs : List String) (hist : Hist) (dp url title d1 d2 ct : String)
    (hurl : url ≠ "") (hinfo : histGet hist (normalize_title title) = none)
    (hnet : net url = NetResult.ok ct)
    (hct : containsSub "application/pdf" ct = false)
    (hu : containsSub "pdf" (pyLowerStr url) = false) :
    download_pdf net fs hist dp url title d1 d2
      = ⟨false, "链接不是有效的PDF文件", "", fs, hist, true⟩ := by
  simp [download_pdf, hurl, hinfo, hnet, hct, hu]

/-- Closed instantiation of `C5_non_pdf_response_rejected` at a URL with
no "pdf" substring and an HTML content type. -/
theorem C5_non_pdf_response_rejected_witness :
    download_pdf (fun _ => NetResult.ok "text/html") [] [] "/d"
      "http://host/file.bin" "T" "d1" "d2"
      = ⟨false, "链接不是有效的PDF文件", "", [], [], true⟩ :=
  C5_non_pdf_response_rejected (fun _ => NetResult.ok "text/html") [] []
    "/d" "http://host/file.bin" "T" "d1" "d2" "text/html"
    (by decide) (by decide) (by decide) (by decide) (by decide)

/-! ## Claim C1: batch download partition -/

theorem startsWithChars_append (l m : List Char) :
    startsWithChars l (l ++ m) = true := by
  induction l with
  | nil => rfl
  | cons a t ih => simp [startsWithChars, ih]

theorem containsSubChars_append (l m : List Char) :
    containsSubChars l (l ++ m) = true := by
  cases l with
  | nil => cases m <;> simp [containsSubChars, startsWithChars, List.isEmpty]
  | cons a t =>
    rw [List.cons_append, containsSubChars, ← List.cons_append,
      startsWithChars_append]
    simp

theorem dup_message_contains_marker (d : String) :
    containsSub "已下载过" ("已下载过 (日期: " ++ d ++ ")") = true := by
  rw [containsSub,
    show ("已下载过 (日期: " ++ d ++ ")").data
      = "已下载过".data ++ (" (日期: ".data ++ d.data ++ ")".data) from by
        simp [String.data_append]]
  exact containsSubChars_append ..

theorem dmgo_total (net : String → NetResult) (dp d1 d2 : String) (cb : Bool)
    (total : Nat) : ∀ (ps : List PaperDict) (idx : Nat) (fs : List String)
    (hist : Hist),
    (download_multiple_go net dp d1 d2 cb total ps idx fs hist).total
      = total := by
  intro ps
  induction ps with
  | nil => intro idx fs hist; rfl
  | cons p t ih =>
    intro idx fs hist
    simp only [download_multiple_go]
    split
    · simp [ih]
    · split <;> simp [ih]

theorem dmgo_lengths (net : String → NetResult) (dp d1 d2 : String) (cb : Bool)
    (total : Nat) : ∀ (ps : List PaperDict) (idx : Nat) (fs : List String)
    (hist : Hist),
    (download_multiple_go net dp d1 d2 cb total ps idx fs hist).success.length
      + (download_multiple_go net dp d1 d2 cb total ps idx fs hist).failed.length
      + (download_multiple_go net dp d1 d2 cb total ps idx fs hist).skipped.length
      = ps.length := by
  intro ps
  induction ps with
  | nil => intro idx fs hist; rfl
  | cons p t ih =>
    intro idx fs hist
    have hih := ih (idx + 1)
      (download_pdf net fs hist dp (p.pdf_url.getD "")
        (p.title.getD ("paper_" ++ Nat.repr idx)) d1 d2).fs
      (download_pdf net fs hist dp (p.pdf_url.getD "")
        (p.title.getD ("paper_" ++ Nat.repr idx)) d1 d2).hist
    simp only [download_multiple_go]
    split
    · simp only [List.length_cons]
      omega
    · split
      · simp only [List.length_cons]
        omega
      · simp only [List.length_cons]
        omega

theorem dmgo_trace (net : String → NetResult) (dp d1 d2 : String) (cb : Bool)
    (total : Nat) : ∀ (ps : List PaperDict) (idx : Nat) (fs : List String)
    (hist : Hist),
    (download_multiple_go net dp d1 d2 cb total ps idx fs hist).trace
      = expectedTrace cb total ps.length idx := by
  intro ps
  induction ps with
  | nil => intro idx fs hist; rfl
  | cons p t ih =>
    intro idx fs hist
    simp only [download_multiple_go, List.length_cons, expectedTrace]
    split
    · simp [ih]
    · split <;> simp [ih]

theorem dmgo_step (net : String → NetResult) (dp d1 d2 : String) (cb : Bool)
    (total : Nat) (p : PaperDict) (ps : List PaperDict) (idx : Nat)
    (fs : List String) (hist : Hist) (title : String) (r : DownloadOutcome)
    (rest : BatchResult)
    (htitle : title = p.title.getD ("paper_" ++ Nat.repr idx))
    (hr : r = download_pdf net fs hist dp (p.pdf_url.getD "") title d1 d2)
    (hrest : rest = download_multiple_go net dp d1 d2 cb total ps (idx + 1)
      r.fs r.hist) :
    download_multiple_go net dp d1 d2 cb total (p :: ps) idx fs hist
      = if r.ok then
          { rest with
            success := (title, r.message, r.filepath) :: rest.success,
            trace := ((if cb then [BatchEvent.progress idx total] else [])
              ++ [BatchEvent.attempt idx]) ++ rest.trace }
        else if containsSub "已下载过" r.message then
          { rest with
            skipped := (title, r.message) :: rest.skipped,
            trace := ((if cb then [BatchEvent.progress idx total] else [])
              ++ [BatchEvent.attempt idx]) ++ rest.trace }
        else
          { rest with
            failed := (title, r.message) :: rest.failed,
            trace := ((if cb then [BatchEvent.progress idx total] else [])
              ++ [BatchEvent.attempt idx]) ++ rest.trace } := by
  subst htitle hr hrest
  rfl

theorem dup_attempt_is_skipped_shape (net : String → NetResult)
    (fs : List String) (hist : Hist) (dp url title d1 d2 : String)
    (info : HistRecord) (hurl : url ≠ "")
    (hinfo : histGet hist (normalize_title title) = some info) :
    (download_pdf net fs hist dp url title d1 d2).ok = false ∧
    containsSub "已下载过"
      (download_pdf net fs hist dp url title d1 d2).message = true := by
  rw [download_pdf, if_neg hurl, hinfo]
  exact ⟨rfl, dup_message_contains_marker info.date_only⟩

/-- C1 counterexample: routing into `skipped` is by the substring test
`"已下载过" in message`, not by the attempt's outcome kind.  With an
empty download history (so no attempt can be a duplicate), a transport
error whose exception text happens to contain the marker "已下载过"
produces a non-duplicate failure, yet `download_multiple` routes the
paper into `skipped` and leaves `failed` empty — contradicting the claim
that every non-duplicate non-success outcome is placed in `failed`. -/
theorem C1_counterexample_marker_misrouting :
    (download_pdf (fun _ => NetResult.connError "已下载过 (日期: x)") [] []
      "/d" "http://h/p.pdf" "T" "d1" "d2").ok = false ∧
    histGet [] (normalize_title "T") = none ∧
    (download_multiple (fun _ => NetResult.connError "已下载过 (日期: x)")
      "/d" "d1" "d2" true [] [] [⟨some "T", some "http://h/p.pdf"⟩]).failed
      = [] ∧
    (download_multiple (fun _ => NetResult.connError "已下载过 (日期: x)")
      "/d" "d1" "d2" true [] [] [⟨some "T", some "http://h/p.pdf"⟩]).skipped
      = [("T", "下载失败: 已下载过 (日期: x)")] := by
  decide

/-- C1 (amended): `download_multiple` processes the papers strictly
sequentially in input order, invoking the progress callback with
`(current_index, total)` before each attempt; it places each paper in
exactly one of the three buckets (the bucket sizes sum to the input
length) and returns `total` equal to the input length.  Routing is by a
substring test on the outcome message: a successful attempt goes to
`success`; a non-success outcome goes to `skipped` exactly when its
message contains the marker "已下载过", and to `failed` otherwise.
Duplicate outcomes always carry that marker, so duplicates are always
skipped, but a non-duplicate failure whose message happens to contain
the marker is routed to `skipped` as well, not to `failed`.  For the
3-paper run where paper 2 has an empty `pdf_url` and paper 3's title is
already in the history, the result is success=[paper 1],
failed=[paper 2], skipped=[paper 3], total=3. -/
theorem C1_download_multiple_partition :
    (∀ (net : String → NetResult) (dp d1 d2 : String) (cb : Bool)
      (fs : List String) (hist : Hist) (papers : List PaperDict),
      (download_multiple net dp d1 d2 cb fs hist papers).total
        = papers.length) ∧
    (∀ (net : String → NetResult) (dp d1 d2 : String) (cb : Bool)
      (fs : List String) (hist : Hist) (papers : List PaperDict),
      (download_multiple net dp d1 d2 cb fs hist papers).success.length
        + (download_multiple net dp d1 d2 cb fs hist papers).failed.length
        + (download_multiple net dp d1 d2 cb fs hist papers).skipped.length
        = papers.length) ∧
    (∀ (net : String → NetResult) (dp d1 d2 : String) (cb : Bool)
      (fs : List String) (hist : Hist) (papers : List PaperDict),
      (download_multiple net dp d1 d2 cb fs hist papers).trace
        = expectedTrace cb papers.length papers.length 0) ∧
    (∀ (net : String → NetResult) (dp d1 d2 : String) (cb : Bool)
      (total : Nat) (p : PaperDict) (ps : List PaperDict) (idx : Nat)
      (fs : List String) (hist : Hist) (title : String) (r : DownloadOutcome)
      (rest : BatchResult),
      title = p.title.getD ("paper_" ++ Nat.repr idx) →
      r = download_pdf net fs hist dp (p.pdf_url.getD "") title d1 d2 →
      rest = download_multiple_go net dp d1 d2 cb total ps (idx + 1)
        r.fs r.hist →
      download_multiple_go net dp d1 d2 cb total (p :: ps) idx fs hist
        = if r.ok then
            { rest with
              success := (title, r.message, r.filepath) :: rest.success,
              trace := ((if cb then [BatchEvent.progress idx total] else [])
                ++ [BatchEvent.attempt idx]) ++ rest.trace }
          else if containsSub "已下载过" r.message then
            { rest with
              skipped := (title, r.message) :: rest.skipped,
              trace := ((if cb then [BatchEvent.progress idx total] else [])
                ++ [BatchEvent.attempt idx]) ++ rest.trace }
          else
            { rest with
              failed := (title, r.message) :: rest.failed,
              trace := ((if cb then [BatchEvent.progress idx total] else [])
                ++ [BatchEvent.attempt idx]) ++ rest.trace }) ∧
    (∀ (net : String → NetResult) (fs : List String) (hist : Hist)
      (dp url title d1 d2 : String) (info : HistRecord), url ≠ "" →
      histGet hist (normalize_title title) = some info →
      (download_pdf net fs hist dp url title d1 d2).ok = false ∧
      containsSub "已下载过"
        (download_pdf net fs hist dp url title d1 d2).message = true) ∧
    ((download_multiple (fun _ => NetResult.ok "application/pdf") "/d"
        "2024-02-02 00:00:00" "2024-02-02" true []
        [("paper three", ⟨"Paper Three", "/d/c.pdf", some "http://x/c.pdf",
          "2024-01-01 00:00:00", "2024-01-01"⟩)]
        [⟨some "Paper One", some "http://x/a.pdf"⟩,
         ⟨some "Paper Two", some ""⟩,
         ⟨some "Paper Three", some "http://x/c.pdf"⟩]).success
      = [("Paper One", "成功下载到: /d/Paper One.pdf", "/d/Paper One.pdf")] ∧
    (download_multiple (fun _ => NetResult.ok "application/pdf") "/d"
        "2024-02-02 00:00:00" "2024-02-02" true []
        [("paper three", ⟨"Paper Three", "/d/c.pdf", some "http://x/c.pdf",
          "2024-01-01 00:00:00", "2024-01-01"⟩)]
        [⟨some "Paper One", some "http://x/a.pdf"⟩,
         ⟨some "Paper Two", some ""⟩,
         ⟨some "Paper Three", some "http://x/c.pdf"⟩]).failed
      = [("Paper Two", "PDF链接不可用")] ∧
    (download_multiple (fun _ => NetResult.ok "application/pdf") "/d"
        "2024-02-02 00:00:00" "2024-02-02" true []
        [("paper three", ⟨"Paper Three", "/d/c.pdf", some "http://x/c.pdf",
          "2024-01-01 00:00:00", "2024-01-01"⟩)]
        [⟨some "Paper One", some "http://x/a.pdf"⟩,
         ⟨some "Paper Two", some ""⟩,
         ⟨some "Paper Three", some "http://x/c.pdf"⟩]).skipped
      = [("Paper Three", "已下载过 (日期: 2024-01-01)")] ∧
    (download_multiple (fun _ => NetResult.ok "application/pdf") "/d"
        "2024-02-02 00:00:00" "2024-02-02" true []
        [("paper three", ⟨"Paper Three", "/d/c.pdf", some "http://x/c.pdf",
          "2024-01-01 00:00:00", "2024-01-01"⟩)]
        [⟨some "Paper One", some "http://x/a.pdf"⟩,
         ⟨some "Paper Two", some ""⟩,
         ⟨some "Paper Three", some "http://x/c.pdf"⟩]).total = 3) := by
  refine ⟨?_, ?_, ?_, dmgo_step, dup_attempt_is_skipped_shape,
    by decide, by decide, by decide, by decide⟩
  · intro net dp d1 d2 cb fs hist papers
    exact dmgo_total net dp d1 d2 cb papers.length papers 0 fs hist
  · intro net dp d1 d2 cb fs hist papers
    exact dmgo_lengths net dp d1 d2 cb papers.length papers 0 fs hist
  · intro net dp d1 d2 cb fs hist papers
    exact dmgo_trace net dp d1 d2 cb papers.length papers 0 fs hist

/-- Closed instantiation of `C1_download_multiple_partition` discharging
the hypotheses of its routing and duplicate-shape conjuncts at concrete
inputs. -/
theorem C1_download_multiple_partition_witness :
    download_multiple_go (fun _ => NetResult.ok "application/pdf") "/d"
      "d1" "d2" true 1 [⟨some "T", some ""⟩] 0 [] []
      = { success := [], failed := [("T", "PDF链接不可用")], skipped := [],
          total := 1, fs := [], hist := [],
          trace := [BatchEvent.progress 0 1, BatchEvent.attempt 0] } ∧
    (download_pdf (fun _ => NetResult.ok "application/pdf") []
      [("t", ⟨"T", "/d/t.pdf", none, "a", "2024-01-01"⟩)] "/d" "http://u"
      "T" "d1" "d2").ok = false := by
  constructor
  · have h := C1_download_multiple_partition.2.2.2.1
      (fun _ => NetResult.ok "application/pdf") "/d" "d1" "d2" true 1
      ⟨some "T", some ""⟩ [] 0 [] [] "T"
      (download_pdf (fun _ => NetResult.ok "application/pdf") [] [] "/d"
        "" "T" "d1" "d2")
      (download_multiple_go (fun _ => NetResult.ok "application/pdf") "/d"
        "d1" "d2" true 1 [] 1
        (download_pdf (fun _ => NetResult.ok "application/pdf") [] [] "/d"
          "" "T" "d1" "d2").fs
        (download_pdf (fun _ => NetResult.ok "application/pdf") [] [] "/d"
          "" "T" "d1" "d2").hist)
      (by decide) rfl rfl
    rw [h]
    decide
  · exact (C1_download_multiple_partition.2.2.2.2.1
      (fun _ => NetResult.ok "application/pdf") []
      [("t", ⟨"T", "/d/t.pdf", none, "a", "2024-01-01"⟩)] "/d" "http://u"
      "T" "d1" "d2" ⟨"T", "/d/t.pdf", none, "a", "2024-01-01"⟩
      (by decide) (by decide)).1

/-! ## Claim C7: OpenReview record filtering -/

/-- C7: no paper returned by the OpenReview response processing has an
empty or sentinel "No Title" title (after unwrapping a possible wrapper
object), and a note with no creation timestamp but a usable title is
returned with an absent published date, regardless of the requested
date range. -/
theorem C7_openreview_title_and_date_rules :
    (∀ (ts : Nat → String) (sd ed : Option String) (max : Nat)
      (notes : List ORNote), ∀ p ∈ openreview_search ts sd ed max notes,
      p.title ≠ "" ∧ p.title ≠ "No Title") ∧
    (∀ (ts : Nat → String) (sd ed : Option String) (max : Nat)
      (note : ORNote), note.cdate = 0 → get_value note.title ≠ "" →
      get_value note.title ≠ "No Title" → 0 < max →
      (openreview_search ts sd ed max [note]).map Paper.published
        = [none]) := by
  constructor
  · intro ts sd ed max notes p hp
    rw [openreview_search] at hp
    rcases List.mem_filterMap.mp hp with ⟨note, _, hf⟩
    dsimp only at hf
    by_cases hcd : note.cdate ≠ 0
    · rw [if_pos hcd] at hf
      dsimp only at hf
      split at hf
      · exact absurd hf (by simp)
      · split at hf
        · exact absurd hf (by simp)
        · rename_i hbad
          simp only [Bool.or_eq_true, decide_eq_true_eq, not_or] at hbad
          have hfp := Option.some.inj hf
          rw [← hfp]
          exact hbad
    · rw [if_neg hcd] at hf
      dsimp only at hf
      split at hf
      · exact absurd hf (by simp)
      · split at hf
        · exact absurd hf (by simp)
        · rename_i hbad
          simp only [Bool.or_eq_true, decide_eq_true_eq, not_or] at hbad
          have hfp := Option.some.inj hf
          rw [← hfp]
          exact hbad
  · intro ts sd ed max note hcd h1 h2 hmax
    cases max with
    | zero => omega
    | succ m =>
      rw [openreview_search]
      simp [hcd, h1, h2]

/-- Closed instantiation of `C7_openreview_title_and_date_rules`: a
concrete wrapped-title note with no timestamp is surfaced with a
non-sentinel title and an absent date, under a date range that would
exclude every dated record. -/
theorem C7_openreview_title_and_date_rules_witness :
    ((⟨"Nice Paper", "Abs", "https://openreview.net/forum?id=abc",
        some "https://openreview.net/pdf?id=abc", [], none, "OpenReview"⟩ :
        Paper).title ≠ "" ∧
      (⟨"Nice Paper", "Abs", "https://openreview.net/forum?id=abc",
        some "https://openreview.net/pdf?id=abc", [], none, "OpenReview"⟩ :
        Paper).title ≠ "No Title") ∧
    (openreview_search (fun _ => "2024-01-01") (some "2025-01-01")
      (some "2025-12-31") 5
      [⟨JsonField.obj "Nice Paper", JsonField.str "Abs", JsonField.absent,
        0, "abc", []⟩]).map Paper.published = [none] := by
  constructor
  · exact C7_openreview_title_and_date_rules.1 (fun _ => "2024-01-01")
      none none 5
      [⟨JsonField.obj "Nice Paper", JsonField.str "Abs", JsonField.absent,
        0, "abc", []⟩]
      ⟨"Nice Paper", "Abs", "https://openreview.net/forum?id=abc",
        some "https://openreview.net/pdf?id=abc", [], none, "OpenReview"⟩
      (by decide)
  · exact C7_openreview_title_and_date_rules.2 (fun _ => "2024-01-01")
      (some "2025-01-01") (some "2025-12-31") 5
      ⟨JsonField.obj "Nice Paper", JsonField.str "Abs", JsonField.absent,
        0, "abc", []⟩
      rfl (by decide) (by decide) (by decide)

/-! ## Claim C9: the anti-bot bounded wait -/

theorem bounded_wait_never_clears (cleared : Nat → Bool)
    (hc : ∀ t, cleared t = false) :
    ∀ (fuel e : Nat), 120 - e ≤ 2 * fuel → 2 ∣ e → e ≤ 120 →
    bounded_wait cleared 120 2 fuel e = (false, 120) := by
  intro fuel
  induction fuel with
  | zero =>
    intro e h hd hle
    have he : e = 120 := by omega
    subst he
    rfl
  | succ fuel ih =>
    intro e h hd hle
    rw [bounded_wait]
    by_cases he : e < 120
    · rw [if_pos he, hc e, if_neg (by simp)]
      exact ih (e + 2) (by omega) (by omega) (by omega)
    · rw [if_neg he]
      have : e = 120 := by omega
      rw [this]

theorem bounded_wait_early_exit (cleared : Nat → Bool) :
    ∀ (k fuel e : Nat), (∀ j < k, cleared (e + 2 * j) = false) →
      cleared (e + 2 * k) = true → e + 2 * k < 120 → k < fuel →
      bounded_wait cleared 120 2 fuel e = (true, e + 2 * k) := by
  intro k
  induction k with
  | zero =>
    intro fuel e hbefore hcl hlt hfuel
    cases fuel with
    | zero => omega
    | succ f =>
      have he : e < 120 := by omega
      have hcl' : cleared e = true := by simpa using hcl
      rw [bounded_wait, if_pos he, hcl', if_pos rfl]
      simp
  | succ k ih =>
    intro fuel e hbefore hcl hlt hfuel
    cases fuel with
    | zero => omega
    | succ f =>
      have he : e < 120 := by omega
      have h0 : cleared e = false := by simpa using hbefore 0 (by omega)
      rw [bounded_wait, if_pos he, h0, if_neg (by simp)]
      have hidx : e + 2 + 2 * k = e + 2 * (k + 1) := by ring
      have hres := ih f (e + 2)
        (fun j hj => by
          have := hbefore (j + 1) (by omega)
          have harith : e + 2 * (j + 1) = e + 2 + 2 * j := by ring
          rwa [harith] at this)
        (by rwa [hidx]) (by omega) (by omega)
      rw [hres, hidx]

/-- C9: the bounded anti-bot wait always returns control.  When the block
condition never clears, the poll loop (2-second interval, 120-second
ceiling) gives up unverified at elapsed time 120 — within the ceiling
plus one polling interval — and the engine returns the empty result
list with no internal retry; when the block clears (and genuine result
markup is present) at the k-th poll before the ceiling, the loop exits
early at that poll and the search proceeds. -/
theorem C9_bounded_wait_returns_control :
    (∀ (cleared : Nat → Bool) (proceed : Nat → List Paper),
      (∀ t, cleared t = false) →
      scholar_block_wait cleared = (false, 120) ∧
      scholar_blocked_search cleared proceed = ([], 120) ∧
      120 ≤ 120 + 2) ∧
    (∀ (cleared : Nat → Bool) (proceed : Nat → List Paper) (k : Nat),
      (∀ j < k, cleared (2 * j) = false) → cleared (2 * k) = true →
      2 * k < 120 →
      scholar_block_wait cleared = (true, 2 * k) ∧
      scholar_blocked_search cleared proceed = (proceed (2 * k), 2 * k)) := by
  constructor
  · intro cleared proceed hc
    have hwait : scholar_block_wait cleared = (false, 120) :=
      bounded_wait_never_clears cleared hc 121 0 (by omega) (by omega)
        (by omega)
    refine ⟨hwait, ?_, by omega⟩
    rw [scholar_blocked_search, hwait]
    simp
  · intro cleared proceed k hbefore hcl hlt
    have hwait : scholar_block_wait cleared = (true, 2 * k) := by
      have := bounded_wait_early_exit cleared k 121 0
        (fun j hj => by simpa using hbefore j hj) (by simpa using hcl)
        (by omega) (by omega)
      simpa [scholar_block_wait] using this
    refine ⟨hwait, ?_⟩
    rw [scholar_blocked_search, hwait]
    simp

/-- Closed instantiation of `C9_bounded_wait_returns_control`: a block
that never clears gives up at 120 seconds with an empty result; a block
clearing at the fourth poll (6 seconds) exits early. -/
theorem C9_bounded_wait_returns_control_witness :
    scholar_blocked_search (fun _ => false) (fun _ => []) = ([], 120) ∧
    scholar_block_wait (fun t => decide (6 ≤ t)) = (true, 2 * 3) :=
  ⟨(C9_bounded_wait_returns_control.1 (fun _ => false) (fun _ => [])
      (fun _ => rfl)).2.1,
   (C9_bounded_wait_returns_control.2 (fun t => decide (6 ≤ t)) (fun _ => [])
      3 (by decide) (by decide) (by omega)).1⟩

/-! ## Claim C8: search-history merge, cap, and ordering -/

theorem update_existing_length (kw ex : String) (src : List String)
    (rc now : Nat) :
    ∀ (h h' : List SearchRecord),
      update_existing kw ex src rc now h = some h' → h'.length = h.length := by
  intro h
  induction h with
  | nil => intro h' hup; simp [update_existing] at hup
  | cons r t ih =>
    intro h' hup
    rw [update_existing] at hup
    by_cases hm : recMatches r kw ex = true
    · rw [if_pos hm] at hup
      have := Option.some.inj hup
      rw [← this]
      simp
    · rw [if_neg hm] at hup
      cases hrec : update_existing kw ex src rc now t with
      | none => rw [hrec] at hup; simp at hup
      | some t' =>
        rw [hrec] at hup
        dsimp only [Option.map] at hup
        have := Option.some.inj hup
        rw [← this]
        simp [ih t' hrec]

theorem update_existing_found (kw ex : String) (src : List String)
    (rc now : Nat) :
    ∀ (pre : List SearchRecord) (r : SearchRecord) (post : List SearchRecord),
      (∀ r' ∈ pre, recMatches r' kw ex = false) → recMatches r kw ex = true →
      update_existing kw ex src rc now (pre ++ r :: post)
        = some (pre ++
            { r with
                last_search_time := now,
                search_count := r.search_count + 1,
                sources := src,
                results_count := rc } :: post) := by
  intro pre
  induction pre with
  | nil =>
    intro r post hpre hr
    rw [List.nil_append, update_existing, if_pos hr, List.nil_append]
  | cons a pre ih =>
    intro r post hpre hr
    have ha : recMatches a kw ex = false := hpre a (by simp)
    rw [List.cons_append, update_existing, if_neg (by simp [ha]),
      ih r post (fun r' hr' => hpre r' (List.mem_cons_of_mem a hr')) hr]
    rfl

theorem update_existing_none (kw ex : String) (src : List String)
    (rc now : Nat) :
    ∀ (h : List SearchRecord), (∀ r ∈ h, recMatches r kw ex = false) →
      update_existing kw ex src rc now h = none := by
  intro h
  induction h with
  | nil => intro _; rfl
  | cons r t ih =>
    intro hall
    rw [update_existing, if_neg (by simp [hall r (by simp)]),
      ih (fun r' hr' => hall r' (List.mem_cons_of_mem r hr'))]
    rfl

theorem isSorted_cons (x : SearchRecord) :
    ∀ (h : List SearchRecord), isSortedByLastDesc h = true →
      (∀ r ∈ h, r.last_search_time ≤ x.last_search_time) →
      isSortedByLastDesc (x :: h) = true := by
  intro h hs hle
  cases h with
  | nil => rfl
  | cons b t =>
    rw [isSortedByLastDesc]
    simp only [Bool.and_eq_true, decide_eq_true_eq]
    exact ⟨hle b (by simp), hs⟩

theorem isSorted_take :
    ∀ (l : List SearchRecord) (n : Nat), isSortedByLastDesc l = true →
      isSortedByLastDesc (l.take n) = true := by
  intro l
  induction l with
  | nil => intro n _; simp [List.take_nil]; rfl
  | cons a t ih =>
    intro n h
    cases n with
    | zero => rfl
    | succ m =>
      rw [List.take_succ_cons]
      cases t with
      | nil => simp [List.take_nil]; rfl
      | cons b t' =>
        rw [isSortedByLastDesc] at h
        simp only [Bool.and_eq_true, decide_eq_true_eq] at h
        cases m with
        | zero => rfl
        | succ m' =>
          rw [List.take_succ_cons, isSortedByLastDesc]
          simp only [Bool.and_eq_true, decide_eq_true_eq]
          have := ih (m' + 1) h.2
          rw [List.take_succ_cons] at this
          exact ⟨h.1, this⟩

/-- C8 counterexample: an in-place update refreshes `last_search_time`
but leaves the record at its existing position, so the repeated-query
operation does not preserve the most-recent-first order.  Starting from
a sorted two-record history and repeating the second record's query at a
later time leaves the freshly-updated record behind the stale one. -/
theorem C8_counterexample_update_breaks_order :
    isSortedByLastDesc
      [⟨"a", "", [], 0, 2, 2, 1⟩, ⟨"b", "", [], 0, 1, 1, 1⟩] = true ∧
    ([(⟨"a", "", [], 0, 2, 2, 1⟩ : SearchRecord),
      ⟨"b", "", [], 0, 1, 1, 1⟩].all
      fun r => r.last_search_time ≤ 3) = true ∧
    isSortedByLastDesc
      (add_search [⟨"a", "", [], 0, 2, 2, 1⟩, ⟨"b", "", [], 0, 1, 1, 1⟩]
        "b" "" [] 0 3) = false := by
  decide

/-- C8 (amended): record identity is the pair
`(keywords, exclude_keywords)`.  A query equal to an existing record
updates that record in place — at its existing list position —
incrementing `search_count` and refreshing `last_search_time`,
`sources` and `results_count`, without appending a duplicate (the list
length is unchanged); a query matching no record inserts a fresh record
with `search_count = 1` at the front and truncates the list to 100
entries.  Both operations preserve the 100-entry cap, and the insertion
preserves the most-recent-first order whenever the new timestamp is
maximal; the in-place update, however, does not move the record, so it
preserves the order only when the matching record is already at the
front. -/
theorem C8_search_history_merge_cap_order :
    (∀ (h : List SearchRecord) (kw ex : String) (src : List String)
      (rc now : Nat), h.length ≤ 100 →
      (add_search h kw ex src rc now).length ≤ 100) ∧
    (∀ (pre : List SearchRecord) (r : SearchRecord)
      (post : List SearchRecord) (kw ex : String) (src : List String)
      (rc now : Nat),
      (∀ r' ∈ pre, recMatches r' kw ex = false) → recMatches r kw ex = true →
      add_search (pre ++ r :: post) kw ex src rc now
        = pre ++
            { r with
                last_search_time := now,
                search_count := r.search_count + 1,
                sources := src,
                results_count := rc } :: post ∧
      (add_search (pre ++ r :: post) kw ex src rc now).length
        = (pre ++ r :: post).length) ∧
    (∀ (h : List SearchRecord) (kw ex : String) (src : List String)
      (rc now : Nat), (∀ r ∈ h, recMatches r kw ex = false) →
      add_search h kw ex src rc now
        = ({ keywords := kw, exclude_keywords := ex, sources := src,
             results_count := rc, first_search_time := now,
             last_search_time := now, search_count := 1 } :: h).take 100) ∧
    (∀ (h : List SearchRecord) (kw ex : String) (src : List String)
      (rc now : Nat), (∀ r ∈ h, recMatches r kw ex = false) →
      isSortedByLastDesc h = true →
      (∀ r ∈ h, r.last_search_time ≤ now) →
      isSortedByLastDesc (add_search h kw ex src rc now) = true) := by
  have hfound : ∀ (pre : List SearchRecord) (r : SearchRecord)
      (post : List SearchRecord) (kw ex : String) (src : List String)
      (rc now : Nat),
      (∀ r' ∈ pre, recMatches r' kw ex = false) → recMatches r kw ex = true →
      add_search (pre ++ r :: post) kw ex src rc now
        = pre ++
            { r with
                last_search_time := now,
                search_count := r.search_count + 1,
                sources := src,
                results_count := rc } :: post := by
    intro pre r post kw ex src rc now hpre hr
    rw [add_search, update_existing_found kw ex src rc now pre r post hpre hr]
  have hnone : ∀ (h : List SearchRecord) (kw ex : String) (src : List String)
      (rc now : Nat), (∀ r ∈ h, recMatches r kw ex = false) →
      add_search h kw ex src rc now
        = ({ keywords := kw, exclude_keywords := ex, sources := src,
             results_count := rc, first_search_time := now,
             last_search_time := now, search_count := 1 } :: h).take 100 := by
    intro h kw ex src rc now hall
    rw [add_search, update_existing_none kw ex src rc now h hall]
  refine ⟨?_, ?_, hnone, ?_⟩
  · intro h kw ex src rc now hlen
    rw [add_search]
    cases hup : update_existing kw ex src rc now h with
    | some h' =>
      rw [update_existing_length kw ex src rc now h h' hup]
      exact hlen
    | none => exact le_trans (List.length_take_le ..) (by simp)
  · intro pre r post kw ex src rc now hpre hr
    refine ⟨hfound pre r post kw ex src rc now hpre hr, ?_⟩
    rw [hfound pre r post kw ex src rc now hpre hr]
    simp
  · intro h kw ex src rc now hall hsorted hle
    rw [hnone h kw ex src rc now hall]
    refine isSorted_take _ 100 (isSorted_cons _ h hsorted ?_)
    intro r hr
    exact hle r hr

/-- Closed instantiation of `C8_search_history_merge_cap_order`: a
repeated query updates the matching record in place without growing the
list, and a fresh query inserts at the front and stays sorted. -/
theorem C8_search_history_merge_cap_order_witness :
    add_search [⟨"a", "", [], 0, 2, 2, 1⟩, ⟨"b", "", [], 0, 1, 1, 1⟩]
      "b" "" ["arxiv"] 7 3
      = [⟨"a", "", [], 0, 2, 2, 1⟩, ⟨"b", "", ["arxiv"], 7, 1, 3, 2⟩] ∧
    isSortedByLastDesc
      (add_search [⟨"a", "", [], 0, 2, 2, 1⟩, ⟨"b", "", [], 0, 1, 1, 1⟩]
        "c" "" [] 0 3) = true := by
  constructor
  · have h := (C8_search_history_merge_cap_order.2.1
      [⟨"a", "", [], 0, 2, 2, 1⟩] ⟨"b", "", [], 0, 1, 1, 1⟩ []
      "b" "" ["arxiv"] 7 3 (by decide) (by decide)).1
    exact h.trans (by decide)
  · exact C8_search_history_merge_cap_order.2.2.2
      [⟨"a", "", [], 0, 2, 2, 1⟩, ⟨"b", "", [], 0, 1, 1, 1⟩]
      "c" "" [] 0 3 (by decide) (by decide) (by decide)
